import Mathlib

/-!
Shallow embedding of the incremental-run caching layer of the `ledger`
repository (`src/scripts/util/cache.py`): the typed cache data model, the
cache read fallback behaviour, script-key derivation, eviction, and the
`JournalRunContext` session protocol, together with proofs of the
specification's testable properties.

Conventions of the embedding:
* File contents are abstract byte lists; the filesystem is a total map from
  path strings to `Option Bytes`, `none` meaning the file is missing or
  unreadable (opening raises `FileNotFoundError`).
* SHA-256 is an abstract parameter `sha : Bytes → String` (its internal
  structure is irrelevant to the cache layer: only equality of digests is
  ever consulted).
* Python `dict`s (insertion-ordered, unique keys) are association lists;
  assignment replaces the first matching key in place or appends.
* `datetime` values are either `valid t` (with `.timestamp()` returning `t`,
  an integer count of seconds) or `malformed` (`.timestamp()` raises).
* Functions that may raise return `Except String` / `Option`.
-/

set_option autoImplicit false

namespace LedgerCache

instance {ε α : Type} [DecidableEq ε] [DecidableEq α] : DecidableEq (Except ε α)
  | .ok a, .ok b =>
    if h : a = b then .isTrue (by rw [h])
    else .isFalse (by intro hh; cases hh; exact h rfl)
  | .ok _, .error _ => .isFalse (by intro h; cases h)
  | .error _, .ok _ => .isFalse (by intro h; cases h)
  | .error e, .error f =>
    if h : e = f then .isTrue (by rw [h])
    else .isFalse (by intro hh; cases hh; exact h rfl)

/-- Byte content of a file. -/
abbrev Bytes := List Nat

/-- Abstract filesystem: path to file bytes; `none` = missing/unreadable. -/
abbrev FS := String → Option Bytes

/-- A `datetime` as stored in the cache: either a value whose `timestamp()`
call succeeds with an integer number of seconds, or a malformed one whose
`timestamp()` call raises. -/
inductive DateTimeV where
  | valid (t : Int)
  | malformed
deriving DecidableEq

/-- `datetime.timestamp()`: `none` models the call raising. -/
def DateTimeV.timestamp? : DateTimeV → Option Int
  | .valid t => some t
  | .malformed => none

/-- Per-file cache entry (`FileEntryModel` in `cache.py`). -/
structure FileEntryModel where
  hash : Option String := none
  last_success : Option DateTimeV := none
deriving DecidableEq

/-- Per-script cache entry (`ScriptEntryModel` in `cache.py`): `files` is a
Python dict from journal path to `FileEntryModel`, modelled as an
association list. -/
structure ScriptEntryModel where
  last_access : Option DateTimeV := none
  files : List (String × FileEntryModel) := []
deriving DecidableEq

/-- The cache root (`CacheModel.root` in `cache.py`): a dict from script key
to `ScriptEntryModel`. -/
abbrev CacheModel := List (String × ScriptEntryModel)

/-- `ScriptEntryModel()` with all defaults. -/
def emptyScriptEntry : ScriptEntryModel := {}

/-- Python `dict.get`: first binding of `key`, if any. -/
def alookup {α : Type} : List (String × α) → String → Option α
  | [], _ => none
  | (k, v) :: rest, key => if k = key then some v else alookup rest key

/-- Python `dict[key] = v`: replace the first binding of `key` in place,
or append a new binding at the end. -/
def ainsert {α : Type} : List (String × α) → String → α → List (String × α)
  | [], key, v => [(key, v)]
  | (k, w) :: rest, key, v =>
    if k = key then (k, v) :: rest else (k, w) :: ainsert rest key v

/-- Lookup of a file entry through the cache root. -/
def fileLookup (c : CacheModel) (k p : String) : Option FileEntryModel :=
  (alookup c k).bind fun e => alookup e.files p

/-- Well-formedness every cache produced by Python dicts enjoys: keys are
unique at the root and inside every `files` map. -/
def FilesWF (files : List (String × FileEntryModel)) : Prop :=
  (files.map Prod.fst).Nodup

def CacheWF (c : CacheModel) : Prop :=
  (c.map Prod.fst).Nodup ∧ ∀ p ∈ c, FilesWF p.2.files

/-- `file_hash`: SHA-256 hex digest of the file's current bytes; `none`
models `FileNotFoundError`. -/
def file_hash (sha : Bytes → String) (fs : FS) (path : String) : Option String :=
  (fs path).map sha

/-- `Path(p).name`: the basename, i.e. the component after the last slash. -/
def pathName (p : String) : String :=
  String.mk ((p.data.reverse.takeWhile fun c => c ≠ '/').reverse)

/-- `script_key_from`: `<basename>@<sha256(bytes)>`, raising
`FileNotFoundError` (the `.error` branch) when the script is unreadable. -/
def script_key_from (sha : Bytes → String) (fs : FS) (scriptId : String) :
    Except String String :=
  match fs scriptId with
  | some data => .ok (pathName scriptId ++ "@" ++ sha data)
  | none => .error ("script file " ++ scriptId ++ " not readable")

/-- Result of opening and reading the cache file. -/
inductive ReadFileResult where
  | missing
  | content (text : String)

/-- The empty cache (`CacheModel(root={})`). -/
def emptyCache : CacheModel := []

/-- `read_script_cache`, given the raw read outcome and the combined
JSON-parse-plus-structural-validation function (`model_validate_json`,
`none` = `JSONDecodeError` or `ValidationError`). Returns the resulting
cache and whether a warning was logged. -/
def read_script_cache (validateJson : String → Option CacheModel) :
    ReadFileResult → CacheModel × Bool
  | .missing => (emptyCache, false)
  | .content text =>
    if text.data.all Char.isWhitespace then (emptyCache, false)
    else
      match validateJson text with
      | none => (emptyCache, true)
      | some model => (model, false)

/-- Whether a file entry survives eviction: its `last_success` must exist,
have a working `timestamp()`, and be no older than the threshold. -/
def fileEntryFresh (threshold : Int) (fe : FileEntryModel) : Bool :=
  match fe.last_success with
  | none => false
  | some dt =>
    match dt.timestamp? with
    | none => false
    | some t => decide (¬ t < threshold)

/-- Per-record step of `evict_old_scripts`: `none` removes the whole record
(when `last_access` is malformed or too old); otherwise old/missing/malformed
file entries are dropped from `files`. -/
def evictEntry (threshold : Int) (entry : ScriptEntryModel) :
    Option ScriptEntryModel :=
  match entry.last_access with
  | some dt =>
    match dt.timestamp? with
    | none => none
    | some t =>
      if t < threshold then none
      else some { entry with
                  files := entry.files.filter fun p => fileEntryFresh threshold p.2 }
  | none =>
    some { entry with
           files := entry.files.filter fun p => fileEntryFresh threshold p.2 }

/-- `evict_old_scripts(cache, days=30)`, with `now` the result of
`datetime.now(timezone.utc).timestamp()` at eviction time. Each record is
processed independently of the others, so deleting during iteration over a
key snapshot is exactly a `filterMap`. -/
def evict_old_scripts (now : Int) (cache : CacheModel) (days : Int := 30) :
    CacheModel :=
  let threshold := now - days * 24 * 3600
  cache.filterMap fun p => (evictEntry threshold p.2).map fun e => (p.1, e)

/-- `mark_journal_processed`. The result distinguishes the three outcomes:
`.error` = `script_key_from` raised `FileNotFoundError`; `.ok none` = the
journal vanished, so the function returned early, nothing was written and
the in-memory `last_access` bump was discarded; `.ok (some c)` = `c` was
persisted (after eviction). `now` is the recorded timestamp, `nowEvict` the
clock reading inside `evict_old_scripts`. -/
def mark_journal_processed (sha : Bytes → String) (fs : FS)
    (now nowEvict : Int) (disk : CacheModel) (scriptId journal : String) :
    Except String (Option CacheModel) :=
  match script_key_from sha fs scriptId with
  | .error e => .error e
  | .ok key =>
    let entry := (alookup disk key).getD emptyScriptEntry
    let entry := { entry with last_access := some (.valid now) }
    match file_hash sha fs journal with
    | none => .ok none
    | some h =>
      let entry := { entry with
                     files := ainsert entry.files journal
                       { hash := some h, last_success := some (.valid now) } }
      .ok (some (evict_old_scripts nowEvict (ainsert disk key entry)))

/-- Lexicographic comparison of character lists: the order `sorted` uses on
path strings. -/
def charListLt : List Char → List Char → Bool
  | [], [] => false
  | [], _ :: _ => true
  | _ :: _, [] => false
  | a :: as, b :: bs => if a < b then true else if b < a then false else charListLt as bs

/-- Stable insertion of a string into a sorted list (the building block of
the Python `sorted` used in `__aexit__`). -/
def insertSorted (x : String) : List String → List String
  | [] => [x]
  | y :: ys => if charListLt x.data y.data then x :: y :: ys else y :: insertSorted x ys

/-- `sorted(paths)`: a stable comparison sort on path strings. -/
def sortPaths : List String → List String
  | [] => []
  | x :: xs => insertSorted x (sortPaths xs)

/-- The `JournalRunContext` session object. `reported` is a Python `set`,
modelled as a duplicate-free list in insertion order; `script_key` is the
`_script_key` attribute (`none` = unset). -/
structure JournalRunContext where
  script_id : String
  journals : List String
  to_process : List String := []
  skipped : List String := []
  reported : List String := []
  script_key : Option String := none
deriving DecidableEq

/-- `JournalRunContext(script_id, journals)`. -/
def JournalRunContext.init (scriptId : String) (journals : List String) :
    JournalRunContext :=
  { script_id := scriptId, journals := journals }

/-- The partition loop of `__aenter__` over the candidate journals, given
the cached `files` map of this script's entry: a missing file or an absent
or differing cached hash sends the journal to `to_process`; a matching
cached hash sends it to `skipped`. -/
def partitionJournals (sha : Bytes → String) (fs : FS)
    (files : List (String × FileEntryModel)) :
    List String → List String × List String
  | [] => ([], [])
  | j :: rest =>
    let pr := partitionJournals sha fs files rest
    match file_hash sha fs j with
    | none => (j :: pr.1, pr.2)
    | some h =>
      match alookup files j with
      | some fe => if fe.hash = some h then (pr.1, j :: pr.2) else (j :: pr.1, pr.2)
      | none => (j :: pr.1, pr.2)

/-- Whether one candidate goes to `skipped`: the file is readable and the
cached entry's hash equals the current hash. -/
def goesSkipped (sha : Bytes → String) (fs : FS)
    (files : List (String × FileEntryModel)) (j : String) : Bool :=
  match file_hash sha fs j with
  | none => false
  | some h =>
    match alookup files j with
    | some fe => fe.hash = some h
    | none => false

/-- `__aenter__`, given the cache read from disk. The in-memory `setdefault`
of the script entry is never persisted (no write happens on entry), so only
the resulting session object matters. `.error` = `script_key_from` raised. -/
def JournalRunContext.aenter (sha : Bytes → String) (fs : FS)
    (cache : CacheModel) (ctx : JournalRunContext) :
    Except String JournalRunContext :=
  match script_key_from sha fs ctx.script_id with
  | .error e => .error e
  | .ok key =>
    let entry := (alookup cache key).getD emptyScriptEntry
    let part := partitionJournals sha fs entry.files ctx.journals
    .ok { ctx with to_process := part.1, skipped := part.2,
                   script_key := some key }

/-- `report_success(journal)`: the pair is (session state after the call,
raised exception message if any). When the journal is not among the
session's candidates a `ValueError` is raised before any mutation, so the
state component is the unchanged session. -/
def JournalRunContext.report_success (ctx : JournalRunContext)
    (journal : String) : JournalRunContext × Option String :=
  if journal ∈ ctx.journals then
    ({ ctx with reported :=
        if journal ∈ ctx.reported then ctx.reported
        else ctx.reported ++ [journal] }, none)
  else
    (ctx, some "journal not managed by this JournalRunContext instance")

/-- The `reported`-loop of `__aexit__`: for each reported journal (in sorted
order) freshly hash it, silently skipping vanished files, and store a new
file entry with the current hash and `last_success = now`. -/
def recordReported (sha : Bytes → String) (fs : FS) (now : Int) :
    List (String × FileEntryModel) → List String →
    List (String × FileEntryModel)
  | files, [] => files
  | files, j :: rest =>
    recordReported sha fs now
      (match file_hash sha fs j with
       | none => files
       | some h =>
         ainsert files j { hash := some h, last_success := some (.valid now) })
      rest

/-- The `skipped`-loop of `__aexit__`: refresh `last_success` on an existing
entry, otherwise create one from a fresh hash, silently skipping vanished
files. -/
def refreshSkipped (sha : Bytes → String) (fs : FS) (now : Int) :
    List (String × FileEntryModel) → List String →
    List (String × FileEntryModel)
  | files, [] => files
  | files, j :: rest =>
    refreshSkipped sha fs now
      (match alookup files j with
       | some fe => ainsert files j { fe with last_success := some (.valid now) }
       | none =>
         match file_hash sha fs j with
         | none => files
         | some h =>
           ainsert files j { hash := some h, last_success := some (.valid now) })
      rest

/-- `self._script_key or await script_key_from(self.script_id)`. -/
def JournalRunContext.exitKey (sha : Bytes → String) (fs : FS)
    (ctx : JournalRunContext) : Except String String :=
  match ctx.script_key with
  | some k => .ok k
  | none => script_key_from sha fs ctx.script_id

/-- `__aexit__`, given the cache re-read from disk. `excRaised` is whether an
exception propagated through the session body (`exc_type is not None`).
`last_access` is always bumped to `now`; file entries are recorded for
reported journals and refreshed for skipped journals only on success; the
cache is then pruned by `evict_old_scripts` (clock reading `nowEvict`) and
the result is what `write_script_cache` persists. -/
def JournalRunContext.aexit (sha : Bytes → String) (fs : FS)
    (now nowEvict : Int) (excRaised : Bool) (cache : CacheModel)
    (ctx : JournalRunContext) : Except String CacheModel :=
  match ctx.exitKey sha fs with
  | .error e => .error e
  | .ok key =>
    let entry := (alookup cache key).getD emptyScriptEntry
    let entry := { entry with last_access := some (.valid now) }
    let committedFiles :=
      refreshSkipped sha fs now
        (recordReported sha fs now entry.files (sortPaths ctx.reported))
        (sortPaths ctx.skipped)
    let entry :=
      if excRaised then entry else { entry with files := committedFiles }
    .ok (evict_old_scripts nowEvict (ainsert cache key entry))

/-! ### Concrete fixtures used by the witness theorems -/

/-- A small concrete stand-in for SHA-256, used only to instantiate the
abstract digest parameter in witnesses. -/
def wSha : Bytes → String :=
  fun b => if b = [0] then "h0" else if b = [1] then "h1" else "hx"

/-- A tiny filesystem: script `s` with bytes `[0]`, journal `f` with bytes
`[1]`, everything else missing. -/
def wFS : FS :=
  fun p => if p = "s" then some [0] else if p = "f" then some [1] else none

/-- The same filesystem after editing script `s` to bytes `[1]`. -/
def wFS2 : FS := fun p => if p = "s" then some [1] else none

/-- A session over journal `f` that reported `f` successfully. -/
def wCtx1 : JournalRunContext :=
  { script_id := "s", journals := ["f"], to_process := ["f"],
    reported := ["f"], script_key := some "s@h0" }

/-- The cache persisted by a successful exit of `wCtx1` at time 0. -/
def wC1 : CacheModel :=
  [("s@h0", { last_access := some (.valid 0),
              files := [("f", { hash := some "h1",
                                last_success := some (.valid 0) })] })]

/-- A stored fingerprint whose hash differs from journal `f`'s current
content hash under `wFS`. -/
def wStaleEntry : FileEntryModel :=
  { hash := some "stale", last_success := some (.valid 0) }

/-- A cache whose fingerprint for journal `f` holds a hash differing from
`f`'s current content hash under `wFS`. -/
def wC0stale : CacheModel :=
  [("s@h0", { last_access := some (.valid 0),
              files := [("f", wStaleEntry)] })]

/-- A cache with one stale record and one live record holding one stale and
one fresh file entry (times in seconds; 3000000 > 30 days). -/
def wCacheEvict : CacheModel :=
  [("old", { last_access := some (.valid 0), files := [] }),
   ("live", { last_access := some (.valid 3000000),
              files := [("a", { hash := some "x",
                                last_success := some (.valid 0) }),
                        ("b", { hash := some "y",
                                last_success := some (.valid 3000000) })] })]

/-- A fresh two-candidate session (journal `f` exists, `g` is missing). -/
def wCtx2 : JournalRunContext := JournalRunContext.init "s" ["f", "g"]

/-- The session produced by entering `wCtx2` on an empty cache. -/
def wCtx2' : JournalRunContext :=
  { script_id := "s", journals := ["f", "g"], to_process := ["f", "g"],
    skipped := [], reported := [], script_key := some "s@h0" }

/-- A fresh one-candidate session over journal `f`. -/
def wCtx3 : JournalRunContext := JournalRunContext.init "s" ["f"]

/-- The session produced by entering `wCtx3` on `wC0stale` (hash mismatch
sends `f` to `to_process`). -/
def wCtx3' : JournalRunContext :=
  { script_id := "s", journals := ["f"], to_process := ["f"], skipped := [],
    reported := [], script_key := some "s@h0" }

/-- A session that skipped journal `f` (its cached hash matched). -/
def wCtx5 : JournalRunContext :=
  { script_id := "s", journals := ["f"], to_process := [], skipped := ["f"],
    reported := [], script_key := some "s@h0" }

/-- The cache persisted by a successful exit of `wCtx5` on `wC1` at time
5: only `last_success`/`last_access` are refreshed. -/
def wC5res : CacheModel :=
  [("s@h0", { last_access := some (.valid 5),
              files := [("f", { hash := some "h1",
                                last_success := some (.valid 5) })] })]

/-- The session produced by entering `JournalRunContext.init "s" ["f"]` on
`wC1`: `f` unchanged, hence skipped. -/
def wCtxS2 : JournalRunContext :=
  { script_id := "s", journals := ["f"], to_process := [], skipped := ["f"],
    reported := [], script_key := some "s@h0" }

/-! ### Association-list lemmas -/

theorem alookup_ainsert_self {α : Type} (l : List (String × α)) (k : String) (v : α) :
    alookup (ainsert l k v) k = some v := by
  induction l with
  | nil => simp [ainsert, alookup]
  | cons p rest ih =>
    obtain ⟨k0, w⟩ := p
    by_cases h : k0 = k
    · simp [ainsert, alookup, h]
    · simp [ainsert, alookup, h, ih]

theorem alookup_ainsert_ne {α : Type} (l : List (String × α)) (k k' : String) (v : α)
    (h : k' ≠ k) : alookup (ainsert l k v) k' = alookup l k' := by
  induction l with
  | nil => simp [ainsert, alookup, Ne.symm h]
  | cons p rest ih =>
    obtain ⟨k0, w⟩ := p
    by_cases h0 : k0 = k
    · subst h0
      simp [ainsert, alookup, Ne.symm h]
    · by_cases hk : k0 = k'
      · simp [ainsert, alookup, h0, hk, h]
      · simp [ainsert, alookup, h0, hk, ih]

theorem mem_of_alookup {α : Type} {l : List (String × α)} {k : String} {v : α}
    (h : alookup l k = some v) : (k, v) ∈ l := by
  induction l with
  | nil => simp [alookup] at h
  | cons p rest ih =>
    obtain ⟨k0, w⟩ := p
    by_cases h0 : k0 = k
    · subst h0
      simp [alookup] at h
      subst h
      exact List.mem_cons_self _ _
    · simp [alookup, h0] at h
      exact List.mem_cons_of_mem _ (ih h)

theorem alookup_eq_none {α : Type} {l : List (String × α)} {k : String}
    (h : k ∉ l.map Prod.fst) : alookup l k = none := by
  induction l with
  | nil => rfl
  | cons p rest ih =>
    obtain ⟨k0, w⟩ := p
    simp only [List.map_cons, List.mem_cons, not_or] at h
    have hk : k0 ≠ k := fun hh => h.1 hh.symm
    simp [alookup, hk, ih h.2]

theorem alookup_of_mem_nodup {α : Type} {l : List (String × α)} {k : String} {v : α}
    (hm : (k, v) ∈ l) (hn : (l.map Prod.fst).Nodup) : alookup l k = some v := by
  induction l with
  | nil => cases hm
  | cons p rest ih =>
    obtain ⟨k0, w⟩ := p
    simp only [List.map_cons, List.nodup_cons] at hn
    rcases List.mem_cons.mp hm with h | h
    · cases h
      simp [alookup]
    · have hk : k0 ≠ k := by
        rintro rfl
        exact hn.1 (List.mem_map_of_mem Prod.fst h)
      simp [alookup, hk, ih h hn.2]

theorem mem_keys_ainsert {α : Type} (l : List (String × α)) (k a : String) (v : α) :
    a ∈ (ainsert l k v).map Prod.fst ↔ a ∈ l.map Prod.fst ∨ a = k := by
  induction l with
  | nil => simp [ainsert]
  | cons p rest ih =>
    obtain ⟨k0, w⟩ := p
    by_cases h0 : k0 = k
    · subst h0
      simp [ainsert]
      tauto
    · simp [ainsert, h0, ih]
      tauto

theorem nodup_keys_ainsert {α : Type} {l : List (String × α)} (k : String) (v : α)
    (hn : (l.map Prod.fst).Nodup) : ((ainsert l k v).map Prod.fst).Nodup := by
  induction l with
  | nil => simp [ainsert]
  | cons p rest ih =>
    obtain ⟨k0, w⟩ := p
    simp only [List.map_cons, List.nodup_cons] at hn
    by_cases h0 : k0 = k
    · subst h0
      have h1 : ∀ x : α, (k0, x) ∉ rest := fun x hx =>
        hn.1 (List.mem_map_of_mem Prod.fst hx)
      simpa [ainsert, List.nodup_cons] using ⟨h1, hn.2⟩
    · simp only [ainsert, if_neg h0, List.map_cons, List.nodup_cons]
      refine ⟨?_, ih hn.2⟩
      intro hmem
      rcases (mem_keys_ainsert rest k k0 v).mp hmem with h | h
      · exact hn.1 h
      · exact h0 h

/-! ### Filter lemmas -/

theorem alookup_filter_none {α : Type} (p : String × α → Bool)
    {l : List (String × α)} {k : String}
    (h : alookup l k = none) : alookup (l.filter p) k = none := by
  induction l with
  | nil => rfl
  | cons q rest ih =>
    obtain ⟨k0, w⟩ := q
    by_cases h0 : k0 = k
    · simp [alookup, h0] at h
    · have h' : alookup rest k = none := by simpa [alookup, h0] using h
      by_cases hp : p (k0, w) <;>
        simp [List.filter_cons, hp, alookup, h0, ih h']

theorem alookup_filter {α : Type} (p : String × α → Bool)
    {l : List (String × α)} (k : String)
    (hn : (l.map Prod.fst).Nodup) :
    alookup (l.filter p) k =
      (alookup l k).bind fun v => if p (k, v) then some v else none := by
  induction l with
  | nil => rfl
  | cons q rest ih =>
    obtain ⟨k0, w⟩ := q
    simp only [List.map_cons, List.nodup_cons] at hn
    by_cases h0 : k0 = k
    · subst h0
      have hrest : alookup rest k0 = none := alookup_eq_none hn.1
      by_cases hp : p (k0, w)
      · simp [List.filter_cons, hp, alookup]
      · simp [List.filter_cons, hp, alookup, alookup_filter_none p hrest]
    · by_cases hp : p (k0, w) <;>
        simp [List.filter_cons, hp, alookup, h0, ih hn.2]

theorem alookup_filter_some {α : Type} (p : String × α → Bool)
    {l : List (String × α)} {k : String} {v : α}
    (h : alookup l k = some v) (hp : p (k, v) = true) :
    alookup (l.filter p) k = some v := by
  induction l with
  | nil => simp [alookup] at h
  | cons q rest ih =>
    obtain ⟨k0, w⟩ := q
    by_cases h0 : k0 = k
    · subst h0
      simp [alookup] at h
      subst h
      simp [List.filter_cons, hp, alookup]
    · have h' : alookup rest k = some v := by simpa [alookup, h0] using h
      by_cases hq : p (k0, w) <;>
        simp [List.filter_cons, hq, alookup, h0, ih h']

theorem string_append_cancel_left {s t1 t2 : String} (h : s ++ t1 = s ++ t2) :
    t1 = t2 := by
  have hd := congrArg String.data h
  simp only [String.data_append] at hd
  exact String.ext (List.append_cancel_left hd)

/-! ### Eviction lemmas -/

theorem evictEntry_some_shape {th : Int} {e e' : ScriptEntryModel}
    (h : evictEntry th e = some e') :
    e' = { e with files := e.files.filter fun p => fileEntryFresh th p.2 } := by
  unfold evictEntry at h
  split at h
  · split at h
    · cases h
    · split at h
      · cases h
      · simp only [Option.some.injEq] at h
        exact h.symm
  · simp only [Option.some.injEq] at h
    exact h.symm

theorem alookup_evictMap_none (th : Int) {c : CacheModel} {k : String}
    (h : alookup c k = none) :
    alookup (c.filterMap fun p => (evictEntry th p.2).map fun e => (p.1, e)) k
      = none := by
  induction c with
  | nil => rfl
  | cons q rest ih =>
    obtain ⟨k0, e0⟩ := q
    by_cases h0 : k0 = k
    · simp [alookup, h0] at h
    · have h' : alookup rest k = none := by simpa [alookup, h0] using h
      cases he : evictEntry th e0 <;>
        simp [List.filterMap_cons, he, alookup, h0, ih h']

theorem alookup_evictMap (th : Int) {c : CacheModel} (k : String)
    (hn : (c.map Prod.fst).Nodup) :
    alookup (c.filterMap fun p => (evictEntry th p.2).map fun e => (p.1, e)) k
      = (alookup c k).bind (evictEntry th) := by
  induction c with
  | nil => rfl
  | cons q rest ih =>
    obtain ⟨k0, e0⟩ := q
    simp only [List.map_cons, List.nodup_cons] at hn
    by_cases h0 : k0 = k
    · subst h0
      have hrest : alookup rest k0 = none := alookup_eq_none hn.1
      cases he : evictEntry th e0 with
      | none =>
        simp [List.filterMap_cons, he, alookup, alookup_evictMap_none th hrest]
      | some e' => simp [List.filterMap_cons, he, alookup]
    · cases he : evictEntry th e0 <;>
        simp [List.filterMap_cons, he, alookup, h0, ih hn.2]

theorem alookup_evict (now days : Int) {c : CacheModel} (k : String)
    (hn : (c.map Prod.fst).Nodup) :
    alookup (evict_old_scripts now c days) k
      = (alookup c k).bind (evictEntry (now - days * 24 * 3600)) := by
  simpa [evict_old_scripts] using alookup_evictMap (now - days * 24 * 3600) k hn

/-! ### Partition and sorting lemmas -/

theorem partitionJournals_eq (sha : Bytes → String) (fs : FS)
    (files : List (String × FileEntryModel)) (l : List String) :
    partitionJournals sha fs files l =
      (l.filter (fun j => !goesSkipped sha fs files j),
       l.filter (goesSkipped sha fs files)) := by
  induction l with
  | nil => rfl
  | cons j rest ih =>
    simp only [partitionJournals, ih]
    cases hh : file_hash sha fs j with
    | none => simp [List.filter_cons, goesSkipped, hh]
    | some h =>
      cases hl : alookup files j with
      | none => simp [List.filter_cons, goesSkipped, hh, hl]
      | some fe =>
        by_cases hfe : fe.hash = some h
        · simp [List.filter_cons, goesSkipped, hh, hl, hfe]
        · simp [List.filter_cons, goesSkipped, hh, hl, hfe]

theorem mem_insertSorted (x a : String) (l : List String) :
    a ∈ insertSorted x l ↔ a = x ∨ a ∈ l := by
  induction l with
  | nil => simp [insertSorted]
  | cons y ys ih =>
    by_cases h : charListLt x.data y.data
    · simp [insertSorted, h]
    · simp only [insertSorted, if_neg h, List.mem_cons, ih]
      tauto

theorem mem_sortPaths (a : String) (l : List String) :
    a ∈ sortPaths l ↔ a ∈ l := by
  induction l with
  | nil => simp [sortPaths]
  | cons x xs ih => simp [sortPaths, mem_insertSorted, ih]

/-! ### Lemmas about the two commit loops of `__aexit__` -/

theorem alookup_recordReported_not_mem (sha : Bytes → String) (fs : FS) (now : Int)
    {files : List (String × FileEntryModel)} {R : List String} {f : String}
    (hf : f ∉ R) :
    alookup (recordReported sha fs now files R) f = alookup files f := by
  induction R generalizing files with
  | nil => rfl
  | cons j rest ih =>
    simp only [List.mem_cons, not_or] at hf
    cases hh : file_hash sha fs j with
    | none =>
      simp only [recordReported, hh]
      exact ih hf.2
    | some h =>
      simp only [recordReported, hh]
      rw [ih hf.2, alookup_ainsert_ne _ _ _ _ hf.1]

theorem alookup_recordReported_mem (sha : Bytes → String) (fs : FS) (now : Int)
    {files : List (String × FileEntryModel)} {R : List String} {f : String} {b : Bytes}
    (hf : f ∈ R) (hb : fs f = some b) :
    alookup (recordReported sha fs now files R) f
      = some { hash := some (sha b), last_success := some (.valid now) } := by
  induction R generalizing files with
  | nil => cases hf
  | cons j rest ih =>
    by_cases hmem : f ∈ rest
    · cases hh : file_hash sha fs j with
      | none =>
        simp only [recordReported, hh]
        exact ih hmem
      | some h =>
        simp only [recordReported, hh]
        exact ih hmem
    · have hfj : f = j := by
        rcases List.mem_cons.mp hf with h | h
        · exact h
        · exact absurd h hmem
      subst hfj
      have hh : file_hash sha fs f = some (sha b) := by simp [file_hash, hb]
      simp only [recordReported, hh]
      rw [alookup_recordReported_not_mem sha fs now hmem, alookup_ainsert_self]

theorem alookup_refreshSkipped_not_mem (sha : Bytes → String) (fs : FS) (now : Int)
    {files : List (String × FileEntryModel)} {S : List String} {f : String}
    (hf : f ∉ S) :
    alookup (refreshSkipped sha fs now files S) f = alookup files f := by
  induction S generalizing files with
  | nil => rfl
  | cons j rest ih =>
    simp only [List.mem_cons, not_or] at hf
    cases hl : alookup files j with
    | some fe =>
      simp only [refreshSkipped, hl]
      rw [ih hf.2, alookup_ainsert_ne _ _ _ _ hf.1]
    | none =>
      cases hh : file_hash sha fs j with
      | none =>
        simp only [refreshSkipped, hl, hh]
        exact ih hf.2
      | some h =>
        simp only [refreshSkipped, hl, hh]
        rw [ih hf.2, alookup_ainsert_ne _ _ _ _ hf.1]

theorem alookup_refreshSkipped_mem_some (sha : Bytes → String) (fs : FS) (now : Int)
    {files : List (String × FileEntryModel)} {S : List String} {f : String}
    {fe : FileEntryModel}
    (hf : f ∈ S) (hl : alookup files f = some fe) :
    alookup (refreshSkipped sha fs now files S) f
      = some { fe with last_success := some (.valid now) } := by
  induction S generalizing files fe with
  | nil => cases hf
  | cons j rest ih =>
    by_cases hfj : f = j
    · subst hfj
      simp only [refreshSkipped, hl]
      by_cases hmem : f ∈ rest
      · have h2 := alookup_ainsert_self files f
          { fe with last_success := some (DateTimeV.valid now) }
        have h3 := ih hmem h2
        exact h3
      · rw [alookup_refreshSkipped_not_mem sha fs now hmem, alookup_ainsert_self]
    · have hf' : f ∈ rest := by
        rcases List.mem_cons.mp hf with h | h
        · exact absurd h hfj
        · exact h
      cases hl2 : alookup files j with
      | some fe2 =>
        simp only [refreshSkipped, hl2]
        exact ih hf' (by rw [alookup_ainsert_ne _ _ _ _ hfj]; exact hl)
      | none =>
        cases hh : file_hash sha fs j with
        | none =>
          simp only [refreshSkipped, hl2, hh]
          exact ih hf' hl
        | some h =>
          simp only [refreshSkipped, hl2, hh]
          exact ih hf' (by rw [alookup_ainsert_ne _ _ _ _ hfj]; exact hl)

theorem alookup_refreshSkipped_mem_new (sha : Bytes → String) (fs : FS) (now : Int)
    {files : List (String × FileEntryModel)} {S : List String} {f : String} {b : Bytes}
    (hf : f ∈ S) (hl : alookup files f = none) (hb : fs f = some b) :
    alookup (refreshSkipped sha fs now files S) f
      = some { hash := some (sha b), last_success := some (.valid now) } := by
  induction S generalizing files with
  | nil => cases hf
  | cons j rest ih =>
    by_cases hfj : f = j
    · subst hfj
      have hh : file_hash sha fs f = some (sha b) := by simp [file_hash, hb]
      simp only [refreshSkipped, hl, hh]
      by_cases hmem : f ∈ rest
      · have h2 := alookup_ainsert_self files f
          { hash := some (sha b), last_success := some (DateTimeV.valid now) }
        have h3 := alookup_refreshSkipped_mem_some sha fs now hmem h2
        exact h3
      · rw [alookup_refreshSkipped_not_mem sha fs now hmem, alookup_ainsert_self]
    · have hf' : f ∈ rest := by
        rcases List.mem_cons.mp hf with h | h
        · exact absurd h hfj
        · exact h
      cases hl2 : alookup files j with
      | some fe2 =>
        simp only [refreshSkipped, hl2]
        exact ih hf' (by rw [alookup_ainsert_ne _ _ _ _ hfj]; exact hl)
      | none =>
        cases hh : file_hash sha fs j with
        | none =>
          simp only [refreshSkipped, hl2, hh]
          exact ih hf' hl
        | some h =>
          simp only [refreshSkipped, hl2, hh]
          exact ih hf' (by rw [alookup_ainsert_ne _ _ _ _ hfj]; exact hl)

theorem alookup_refreshSkipped_mem_vanished (sha : Bytes → String) (fs : FS) (now : Int)
    {files : List (String × FileEntryModel)} {S : List String} {f : String}
    (hf : f ∈ S) (hl : alookup files f = none) (hb : fs f = none) :
    alookup (refreshSkipped sha fs now files S) f = none := by
  induction S generalizing files with
  | nil => cases hf
  | cons j rest ih =>
    by_cases hfj : f = j
    · subst hfj
      have hh : file_hash sha fs f = none := by simp [file_hash, hb]
      simp only [refreshSkipped, hl, hh]
      by_cases hmem : f ∈ rest
      · exact ih hmem hl
      · rw [alookup_refreshSkipped_not_mem sha fs now hmem]
        exact hl
    · have hf' : f ∈ rest := by
        rcases List.mem_cons.mp hf with h | h
        · exact absurd h hfj
        · exact h
      cases hl2 : alookup files j with
      | some fe2 =>
        simp only [refreshSkipped, hl2]
        exact ih hf' (by rw [alookup_ainsert_ne _ _ _ _ hfj]; exact hl)
      | none =>
        cases hh : file_hash sha fs j with
        | none =>
          simp only [refreshSkipped, hl2, hh]
          exact ih hf' hl
        | some h =>
          simp only [refreshSkipped, hl2, hh]
          exact ih hf' (by rw [alookup_ainsert_ne _ _ _ _ hfj]; exact hl)

/-! ### Exit-commit lemmas -/

theorem evictEntry_fresh (th now : Int) (e : ScriptEntryModel) (h : ¬ now < th) :
    evictEntry th { e with last_access := some (.valid now) } =
      some { last_access := some (.valid now),
             files := e.files.filter fun p => fileEntryFresh th p.2 } := by
  simp [evictEntry, DateTimeV.timestamp?, h]

theorem fileEntryFresh_now (th now : Int) (fe : FileEntryModel)
    (hls : fe.last_success = some (.valid now)) (h : ¬ now < th) :
    fileEntryFresh th fe = true := by
  simp [fileEntryFresh, hls, DateTimeV.timestamp?, h]

theorem aexit_success_lookup (sha : Bytes → String) (fs : FS)
    (now nowEvict : Int) (c0 : CacheModel) (ctx : JournalRunContext)
    (k : String)
    (hwf : CacheWF c0) (hk : ctx.exitKey sha fs = .ok k)
    (hfresh : nowEvict ≤ now + 30 * 24 * 3600) :
    ∃ c1 e1, ctx.aexit sha fs now nowEvict false c0 = .ok c1 ∧
      alookup c1 k = some e1 ∧
      e1.last_access = some (.valid now) ∧
      e1.files = (refreshSkipped sha fs now
          (recordReported sha fs now
            ((alookup c0 k).getD emptyScriptEntry).files
            (sortPaths ctx.reported))
          (sortPaths ctx.skipped)).filter
        fun p => fileEntryFresh (nowEvict - 30 * 24 * 3600) p.2 := by
  set committed := refreshSkipped sha fs now
      (recordReported sha fs now
        ((alookup c0 k).getD emptyScriptEntry).files
        (sortPaths ctx.reported))
      (sortPaths ctx.skipped) with hcomdef
  have hex : ctx.aexit sha fs now nowEvict false c0 =
      .ok (evict_old_scripts nowEvict (ainsert c0 k
        { last_access := some (.valid now), files := committed })) := by
    unfold JournalRunContext.aexit
    rw [hk]
    rfl
  have hnodup : ((ainsert c0 k
      { last_access := some (.valid now), files := committed }).map
        Prod.fst).Nodup :=
    nodup_keys_ainsert k _ hwf.1
  refine ⟨_,
    { last_access := some (.valid now),
      files := committed.filter fun p => fileEntryFresh (nowEvict - 30 * 24 * 3600) p.2 },
    hex, ?_, rfl, rfl⟩
  rw [alookup_evict nowEvict 30 k hnodup, alookup_ainsert_self]
  simp only [Option.some_bind]
  exact evictEntry_fresh (nowEvict - 30 * 24 * 3600) now
    { last_access := none, files := committed } (by omega)

/-! ### Claim theorems -/

/-- C7 (counterexample): feeding `read_script_cache` a whitespace-only file
returns an empty cache but logs no warning, refuting the claim that each
non-missing failure case (which include the empty file) logs a warning. -/
theorem C7_counterexample :
    read_script_cache (fun _ => none) (.content " \n") = (emptyCache, false) := by
  decide

/-- C7 (amended): `read_script_cache` returns an empty cache, without
raising, when the file is missing, whitespace-only/empty, or fails JSON
parsing or structural validation; a warning is logged in the parse-failure
and validation-failure cases, while the missing and empty cases return
silently. -/
theorem C7_read_fail_open (validateJson : String → Option CacheModel)
    (text : String) :
    read_script_cache validateJson .missing = (emptyCache, false) ∧
    (text.data.all Char.isWhitespace = true →
      read_script_cache validateJson (.content text) = (emptyCache, false)) ∧
    (text.data.all Char.isWhitespace = false → validateJson text = none →
      read_script_cache validateJson (.content text) = (emptyCache, true)) := by
  refine ⟨rfl, ?_, ?_⟩
  · intro h
    simp [read_script_cache, h]
  · intro h hv
    simp [read_script_cache, h, hv]

/-- C7 witness: a concrete unparseable file yields the empty cache plus a
warning. -/
theorem C7_witness :
    read_script_cache (fun _ => none) (.content "x") = (emptyCache, true) :=
  (C7_read_fail_open (fun _ => none) "x").2.2 (by decide) rfl

/-- C8: `report_success` with a journal outside the candidate list raises
`ValueError "journal not managed by this JournalRunContext instance"` and
leaves the session (in particular `reported`) unmutated; with a candidate
journal it raises nothing, adds the journal to `reported`, keeps all
previously reported journals, and changes no other field. -/
theorem C8_report_guard (ctx : JournalRunContext) (j : String) :
    (j ∉ ctx.journals →
      ctx.report_success j =
        (ctx, some "journal not managed by this JournalRunContext instance")) ∧
    (j ∈ ctx.journals →
      (ctx.report_success j).2 = none ∧
      j ∈ (ctx.report_success j).1.reported ∧
      (∀ x, x ∈ ctx.reported → x ∈ (ctx.report_success j).1.reported) ∧
      (ctx.report_success j).1.script_id = ctx.script_id ∧
      (ctx.report_success j).1.journals = ctx.journals ∧
      (ctx.report_success j).1.to_process = ctx.to_process ∧
      (ctx.report_success j).1.skipped = ctx.skipped) := by
  constructor
  · intro h
    simp [JournalRunContext.report_success, h]
  · intro h
    simp only [JournalRunContext.report_success, if_pos h]
    by_cases hr : j ∈ ctx.reported
    · exact ⟨trivial, by simp [hr], fun x hx => by simp [hr, hx], trivial,
        trivial, trivial, trivial⟩
    · refine ⟨trivial, by simp [hr], fun x hx => ?_, trivial, trivial,
        trivial, trivial⟩
      simp only [if_neg hr]
      exact List.mem_append_left _ hx

/-- C8 witness: concrete guard rejection and concrete successful report. -/
theorem C8_witness :
    wCtx1.report_success "z" =
      (wCtx1, some "journal not managed by this JournalRunContext instance") ∧
    (wCtx1.report_success "f").2 = none ∧
    "f" ∈ (wCtx1.report_success "f").1.reported :=
  ⟨(C8_report_guard wCtx1 "z").1 (by decide),
   ((C8_report_guard wCtx1 "f").2 (by decide)).1,
   ((C8_report_guard wCtx1 "f").2 (by decide)).2.1⟩

/-- C9: `script_key_from` returns `<basename>@<sha256(bytes)>` for a
readable script, raises `FileNotFoundError` for an unreadable one, and two
scripts at the same path whose bytes have different digests obtain
different keys. -/
theorem C9_script_key (sha : Bytes → String) (fs : FS) (p : String) :
    (∀ b, fs p = some b →
      script_key_from sha fs p = .ok (pathName p ++ "@" ++ sha b)) ∧
    (fs p = none →
      script_key_from sha fs p =
        .error ("script file " ++ p ++ " not readable")) ∧
    (∀ (fs1 fs2 : FS) (b1 b2 : Bytes), fs1 p = some b1 → fs2 p = some b2 →
      sha b1 ≠ sha b2 →
      script_key_from sha fs1 p ≠ script_key_from sha fs2 p) := by
  refine ⟨?_, ?_, ?_⟩
  · intro b hb
    simp [script_key_from, hb]
  · intro hb
    simp [script_key_from, hb]
  · intro fs1 fs2 b1 b2 h1 h2 hne
    simp only [script_key_from, h1, h2, ne_eq, Except.ok.injEq]
    exact fun heq => hne (string_append_cancel_left heq)

/-- C9 witness: concrete key format, concrete unreadable failure, and a
one-byte edit of the script changing the key. -/
theorem C9_witness :
    script_key_from wSha wFS "s" = .ok (pathName "s" ++ "@" ++ wSha [0]) ∧
    script_key_from wSha wFS "z" =
      .error ("script file " ++ "z" ++ " not readable") ∧
    script_key_from wSha wFS "s" ≠ script_key_from wSha wFS2 "s" :=
  ⟨(C9_script_key wSha wFS "s").1 [0] (by decide),
   (C9_script_key wSha wFS "z").2.1 (by decide),
   (C9_script_key wSha wFS "s").2.2 wFS wFS2 [0] [1] (by decide) (by decide)
     (by decide)⟩

/-- C10: when the journal file does not exist at hashing time (and the
script itself is readable, so execution reaches that point),
`mark_journal_processed` returns without raising and without writing: the
on-disk cache is untouched and the in-memory `last_access` bump is
discarded (`.ok none` = early return, no write performed). -/
theorem C10_mark_vanished (sha : Bytes → String) (fs : FS)
    (now nowEvict : Int) (disk : CacheModel) (s j : String) (b : Bytes)
    (hs : fs s = some b) (hj : fs j = none) :
    mark_journal_processed sha fs now nowEvict disk s j = .ok none := by
  simp [mark_journal_processed, script_key_from, hs, file_hash, hj]

/-- C10 witness: concrete vanished journal `g` under readable script `s`. -/
theorem C10_witness :
    mark_journal_processed wSha wFS 0 0 [] "s" "g" = .ok none :=
  C10_mark_vanished wSha wFS 0 0 [] "s" "g" [0] (by decide) (by decide)

/-- C4: after `__aenter__` returns, `to_process` and `skipped` are disjoint,
their concatenation is a permutation (multiset equality) of the candidate
journal list supplied at construction, and any candidate whose file is
missing or unreadable at hashing time is in `to_process`, never in
`skipped`. -/
theorem C4_partition (sha : Bytes → String) (fs : FS) (cache : CacheModel)
    (ctx ctx' : JournalRunContext)
    (henter : ctx.aenter sha fs cache = .ok ctx') :
    (∀ j, j ∈ ctx'.to_process → j ∉ ctx'.skipped) ∧
    (ctx'.to_process ++ ctx'.skipped).Perm ctx.journals ∧
    (∀ j, j ∈ ctx.journals → fs j = none →
      j ∈ ctx'.to_process ∧ j ∉ ctx'.skipped) := by
  unfold JournalRunContext.aenter at henter
  cases hk : script_key_from sha fs ctx.script_id with
  | error e =>
    rw [hk] at henter
    cases henter
  | ok key =>
    rw [hk] at henter
    simp only [Except.ok.injEq] at henter
    set files := ((alookup cache key).getD emptyScriptEntry).files with hfdef
    have htp : ctx'.to_process =
        ctx.journals.filter (fun j => !goesSkipped sha fs files j) := by
      rw [← henter]
      simp [partitionJournals_eq]
    have hsk : ctx'.skipped =
        ctx.journals.filter (goesSkipped sha fs files) := by
      rw [← henter]
      simp [partitionJournals_eq]
    refine ⟨?_, ?_, ?_⟩
    · intro j hj1 hj2
      rw [htp] at hj1
      rw [hsk] at hj2
      have h1 := (List.mem_filter.mp hj1).2
      have h2 := (List.mem_filter.mp hj2).2
      simp [h2] at h1
    · rw [htp, hsk]
      exact List.perm_append_comm.trans
        (List.filter_append_perm (goesSkipped sha fs files) ctx.journals)
    · intro j hj hnone
      have hgs : goesSkipped sha fs files j = false := by
        simp [goesSkipped, file_hash, hnone]
      constructor
      · rw [htp]
        exact List.mem_filter.mpr ⟨hj, by simp [hgs]⟩
      · rw [hsk]
        intro hc
        have h2 := (List.mem_filter.mp hc).2
        rw [hgs] at h2
        cases h2

/-- C4 witness: a session over one existing and one missing journal. -/
theorem C4_witness :
    ∃ ctx', wCtx2.aenter wSha wFS [] = .ok ctx' ∧
      (∀ j, j ∈ ctx'.to_process → j ∉ ctx'.skipped) ∧
      (ctx'.to_process ++ ctx'.skipped).Perm ["f", "g"] ∧
      ("g" ∈ ctx'.to_process ∧ "g" ∉ ctx'.skipped) := by
  refine ⟨wCtx2', ?_, ?_⟩
  · decide
  · have h := C4_partition wSha wFS [] wCtx2 wCtx2' (by decide)
    exact ⟨h.1, h.2.1, h.2.2 "g" (by decide) (by decide)⟩

/-- C3: a candidate whose current content hash differs from the cached
fingerprint's stored hash for it under the session's key — or for which no
fingerprint exists — is placed in `to_process` and never in `skipped`. -/
theorem C3_content_change (sha : Bytes → String) (fs : FS) (cache : CacheModel)
    (ctx ctx' : JournalRunContext) (k j : String) (b : Bytes)
    (hk : script_key_from sha fs ctx.script_id = .ok k)
    (henter : ctx.aenter sha fs cache = .ok ctx')
    (hj : j ∈ ctx.journals)
    (hb : fs j = some b)
    (hdiff : ∀ fe,
      alookup ((alookup cache k).getD emptyScriptEntry).files j = some fe →
      fe.hash ≠ some (sha b)) :
    j ∈ ctx'.to_process ∧ j ∉ ctx'.skipped := by
  unfold JournalRunContext.aenter at henter
  rw [hk] at henter
  simp only [Except.ok.injEq] at henter
  set files := ((alookup cache k).getD emptyScriptEntry).files with hfdef
  have htp : ctx'.to_process =
      ctx.journals.filter (fun i => !goesSkipped sha fs files i) := by
    rw [← henter]
    simp [partitionJournals_eq]
  have hsk : ctx'.skipped =
      ctx.journals.filter (goesSkipped sha fs files) := by
    rw [← henter]
    simp [partitionJournals_eq]
  have hgs : goesSkipped sha fs files j = false := by
    unfold goesSkipped
    have hfh : file_hash sha fs j = some (sha b) := by simp [file_hash, hb]
    rw [hfh]
    cases hl : alookup files j with
    | none => rfl
    | some fe => simp [hdiff fe hl]
  constructor
  · rw [htp]
    exact List.mem_filter.mpr ⟨hj, by simp [hgs]⟩
  · rw [hsk]
    intro hc
    have h2 := (List.mem_filter.mp hc).2
    rw [hgs] at h2
    cases h2

/-- C3 witness: journal `f` whose cached hash differs from its current
hash goes to `to_process`. -/
theorem C3_witness :
    ∃ ctx', wCtx3.aenter wSha wFS wC0stale = .ok ctx' ∧
      "f" ∈ ctx'.to_process ∧ "f" ∉ ctx'.skipped := by
  refine ⟨wCtx3', by decide, ?_⟩
  exact C3_content_change wSha wFS wC0stale wCtx3 wCtx3'
    "s@h0" "f" [1] (by decide) (by decide) (by decide) (by decide)
    (by
      intro fe hfe
      have h2 : some fe = some wStaleEntry := by
        rw [← hfe]
        decide
      injection h2 with h3
      subst h3
      decide)

/-- C6: `evict_old_scripts` (default threshold 30 days) removes every
record whose `last_access` timestamp is malformed or older than the
threshold, wholesale with all its file entries; every remaining record
keeps its `last_access` and exactly those file entries whose
`last_success` exists, is well-formed and within the threshold. -/
theorem C6_evict_policy (now : Int) (c : CacheModel) (k : String)
    (hwf : CacheWF c) :
    (∀ e dt, alookup c k = some e → e.last_access = some dt →
      (dt.timestamp? = none ∨
        ∃ t, dt.timestamp? = some t ∧ t < now - 30 * 24 * 3600) →
      alookup (evict_old_scripts now c) k = none) ∧
    (∀ e, alookup c k = some e →
      (e.last_access = none ∨
        ∃ dt t, e.last_access = some dt ∧ dt.timestamp? = some t ∧
          ¬ t < now - 30 * 24 * 3600) →
      ∃ e', alookup (evict_old_scripts now c) k = some e' ∧
        e'.last_access = e.last_access ∧
        ∀ q, alookup e'.files q =
          (alookup e.files q).bind fun fe =>
            if fileEntryFresh (now - 30 * 24 * 3600) fe then some fe
            else none) ∧
    (∀ fe, fileEntryFresh (now - 30 * 24 * 3600) fe = true ↔
      ∃ dt t, fe.last_success = some dt ∧ dt.timestamp? = some t ∧
        ¬ t < now - 30 * 24 * 3600) := by
  refine ⟨?_, ?_, ?_⟩
  · intro e dt he hla hbad
    rw [alookup_evict now 30 k hwf.1, he]
    rcases hbad with hmal | ⟨t, ht, hlt⟩
    · simp [evictEntry, hla, hmal]
    · simp [evictEntry, hla, ht]
      omega
  · intro e he hgood
    have hfwf : FilesWF e.files := hwf.2 (k, e) (mem_of_alookup he)
    refine ⟨{ e with files :=
        e.files.filter fun p => fileEntryFresh (now - 30 * 24 * 3600) p.2 },
      ?_, rfl, ?_⟩
    · rw [alookup_evict now 30 k hwf.1, he]
      rcases hgood with hnone | ⟨dt, t, hla, ht, hge⟩
      · simp [evictEntry, hnone]
      · simp [evictEntry, hla, ht]
        omega
    · intro q
      have h := alookup_filter
        (fun p => fileEntryFresh (now - 30 * 24 * 3600) p.2) q hfwf
      simpa using h
  · intro fe
    constructor
    · intro h
      cases hls : fe.last_success with
      | none => simp [fileEntryFresh, hls] at h
      | some dt =>
        cases ht : dt.timestamp? with
        | none => simp [fileEntryFresh, hls, ht] at h
        | some t =>
          simp [fileEntryFresh, hls, ht] at h
          exact ⟨dt, t, rfl, ht, by omega⟩
    · rintro ⟨dt, t, hls, ht, hge⟩
      simp [fileEntryFresh, hls, ht]
      omega

/-- C6 witness: the stale record is removed wholesale; the live record
survives with its `last_access` intact. -/
theorem C6_witness :
    alookup (evict_old_scripts 3000000 wCacheEvict) "old" = none ∧
    ∃ e', alookup (evict_old_scripts 3000000 wCacheEvict) "live" = some e' ∧
      e'.last_access = some (.valid 3000000) := by
  have hwf : CacheWF wCacheEvict := by
    constructor
    · decide
    · show ∀ p ∈ wCacheEvict, (List.map Prod.fst p.2.files).Nodup
      decide
  constructor
  · exact (C6_evict_policy 3000000 wCacheEvict "old" hwf).1
      { last_access := some (.valid 0), files := [] } (.valid 0)
      (by decide) rfl (Or.inr ⟨0, rfl, by decide⟩)
  · obtain ⟨e', h1, h2, _⟩ :=
      (C6_evict_policy 3000000 wCacheEvict "live" hwf).2.1
        { last_access := some (.valid 3000000),
          files := [("a", { hash := some "x",
                            last_success := some (.valid 0) }),
                    ("b", { hash := some "y",
                            last_success := some (.valid 3000000) })] }
        (by decide)
        (Or.inr ⟨.valid 3000000, 3000000, rfl, rfl, by decide⟩)
    exact ⟨e', h1, h2⟩

/-- C1: when the session body raised an exception, `__aexit__` commits only
bookkeeping metadata: the persisted cache is exactly the eviction of the
re-read cache with the record's `last_access` set to now (so eviction still
runs and the document is still persisted); the record's `last_access` is
now; and every file entry present in the persisted cache was already
present, unchanged, in the cache read at exit — nothing is added or
refreshed for any reported or skipped file. -/
theorem C1_exit_failure_metadata_only (sha : Bytes → String) (fs : FS)
    (now nowEvict : Int) (c0 : CacheModel) (ctx : JournalRunContext)
    (k : String)
    (hwf : CacheWF c0)
    (hk : ctx.exitKey sha fs = .ok k)
    (hfresh : nowEvict ≤ now + 30 * 24 * 3600) :
    ∃ c1, ctx.aexit sha fs now nowEvict true c0 = .ok c1 ∧
      c1 = evict_old_scripts nowEvict (ainsert c0 k
        { (alookup c0 k).getD emptyScriptEntry with last_access := some (.valid now) }) ∧
      (∃ e', alookup c1 k = some e' ∧ e'.last_access = some (.valid now)) ∧
      (∀ k' q fe, fileLookup c1 k' q = some fe → fileLookup c0 k' q = some fe) := by
  have hex : ctx.aexit sha fs now nowEvict true c0 =
      .ok (evict_old_scripts nowEvict (ainsert c0 k
        { (alookup c0 k).getD emptyScriptEntry with last_access := some (.valid now) })) := by
    unfold JournalRunContext.aexit
    rw [hk]
    rfl
  have hnodup : ((ainsert c0 k
      { (alookup c0 k).getD emptyScriptEntry with
        last_access := some (.valid now) }).map Prod.fst).Nodup :=
    nodup_keys_ainsert k _ hwf.1
  refine ⟨_, hex, rfl, ?_, ?_⟩
  · have hev := evictEntry_fresh (nowEvict - 30 * 24 * 3600) now
      ((alookup c0 k).getD emptyScriptEntry) (by omega)
    have hlk : alookup (evict_old_scripts nowEvict (ainsert c0 k
        { (alookup c0 k).getD emptyScriptEntry with
          last_access := some (.valid now) })) k
        = evictEntry (nowEvict - 30 * 24 * 3600)
            { (alookup c0 k).getD emptyScriptEntry with
              last_access := some (.valid now) } := by
      rw [alookup_evict nowEvict 30 k hnodup, alookup_ainsert_self]
      rfl
    exact ⟨_, hlk.trans hev, rfl⟩
  · intro k' q fe hq
    unfold fileLookup at hq ⊢
    rw [alookup_evict nowEvict 30 k' hnodup] at hq
    cases h3 : alookup (ainsert c0 k
        { (alookup c0 k).getD emptyScriptEntry with
          last_access := some (.valid now) }) k' with
    | none =>
      rw [h3] at hq
      simp at hq
    | some e0 =>
      rw [h3] at hq
      simp only [Option.none_bind, Option.some_bind] at hq
      cases h4 : evictEntry (nowEvict - 30 * 24 * 3600) e0 with
      | none =>
        rw [h4] at hq
        simp at hq
      | some e' =>
        rw [h4] at hq
        simp only [Option.some_bind] at hq
        have hshape := evictEntry_some_shape h4
        subst hshape
        have hmem : (q, fe) ∈ e0.files :=
          List.mem_of_mem_filter (mem_of_alookup hq)
        by_cases hk' : k' = k
        · subst hk'
          rw [alookup_ainsert_self] at h3
          injection h3 with h3e
          cases hbase : alookup c0 k' with
          | some base =>
            have hfw : FilesWF base.files :=
              hwf.2 (k', base) (mem_of_alookup hbase)
            have hfe0 : e0.files = base.files := by
              rw [← h3e]
              simp [hbase]
            simp only [Option.some_bind]
            exact alookup_of_mem_nodup (hfe0 ▸ hmem) hfw
          | none =>
            have hfe0 : e0.files = [] := by
              rw [← h3e]
              simp [hbase, emptyScriptEntry]
            rw [hfe0] at hmem
            cases hmem
        · rw [alookup_ainsert_ne _ _ _ _ hk'] at h3
          have hfw : FilesWF e0.files :=
            hwf.2 (k', e0) (mem_of_alookup h3)
          rw [h3]
          simp only [Option.some_bind]
          exact alookup_of_mem_nodup hmem hfw

/-- C1 witness: a failed session over a reported journal commits only the
`last_access` bump. -/
theorem C1_witness :
    ∃ c1, wCtx1.aexit wSha wFS 0 0 true [] = .ok c1 ∧
      c1 = evict_old_scripts 0 (ainsert [] "s@h0"
        { (alookup ([] : CacheModel) "s@h0").getD emptyScriptEntry with
          last_access := some (.valid 0) }) ∧
      (∃ e', alookup c1 "s@h0" = some e' ∧
        e'.last_access = some (.valid 0)) ∧
      (∀ k' q fe, fileLookup c1 k' q = some fe →
        fileLookup [] k' q = some fe) :=
  C1_exit_failure_metadata_only wSha wFS 0 0 [] wCtx1 "s@h0"
    ⟨List.nodup_nil, by simp⟩ rfl (by decide)

/-- C5: on successful exit, every skipped (and not reported) file has its
`last_success` set to now while its stored hash is left unchanged; when no
fingerprint exists one is created from a freshly computed hash, silently
omitted if the file has vanished; the refreshed entry is present in the
persisted (post-eviction) cache, so merely-stable files are not evicted by
the file-age policy. -/
theorem C5_skipped_refresh (sha : Bytes → String) (fs : FS)
    (now nowEvict : Int) (c0 : CacheModel) (ctx : JournalRunContext)
    (k f : String) (c1 : CacheModel)
    (hwf : CacheWF c0)
    (hk : ctx.exitKey sha fs = .ok k)
    (hf : f ∈ ctx.skipped)
    (hnr : f ∉ ctx.reported)
    (hfresh : nowEvict ≤ now + 30 * 24 * 3600)
    (hexit : ctx.aexit sha fs now nowEvict false c0 = .ok c1) :
    (∀ fe, alookup ((alookup c0 k).getD emptyScriptEntry).files f = some fe →
      fileLookup c1 k f = some { fe with last_success := some (.valid now) }) ∧
    (∀ b, alookup ((alookup c0 k).getD emptyScriptEntry).files f = none →
      fs f = some b →
      fileLookup c1 k f =
        some { hash := some (sha b), last_success := some (.valid now) }) ∧
    (alookup ((alookup c0 k).getD emptyScriptEntry).files f = none →
      fs f = none → fileLookup c1 k f = none) := by
  obtain ⟨c1', e1, hex2, hkey, hla, hfiles⟩ :=
    aexit_success_lookup sha fs now nowEvict c0 ctx k hwf hk hfresh
  rw [hexit] at hex2
  injection hex2 with hcc
  subst hcc
  have hfnr : f ∉ sortPaths ctx.reported :=
    fun hx => hnr ((mem_sortPaths f ctx.reported).mp hx)
  have hfsk : f ∈ sortPaths ctx.skipped := (mem_sortPaths f ctx.skipped).mpr hf
  have hrec : alookup (recordReported sha fs now
      ((alookup c0 k).getD emptyScriptEntry).files (sortPaths ctx.reported)) f
      = alookup ((alookup c0 k).getD emptyScriptEntry).files f :=
    alookup_recordReported_not_mem sha fs now hfnr
  refine ⟨?_, ?_, ?_⟩
  · intro fe hfe
    have hcom := alookup_refreshSkipped_mem_some sha fs now hfsk (hrec.trans hfe)
    unfold fileLookup
    rw [hkey]
    simp only [Option.some_bind]
    rw [hfiles]
    exact alookup_filter_some _ hcom (fileEntryFresh_now _ now _ rfl (by omega))
  · intro b hnonef hb
    have hcom := alookup_refreshSkipped_mem_new sha fs now hfsk
      (hrec.trans hnonef) hb
    unfold fileLookup
    rw [hkey]
    simp only [Option.some_bind]
    rw [hfiles]
    exact alookup_filter_some _ hcom (fileEntryFresh_now _ now _ rfl (by omega))
  · intro hnonef hfnone
    have hcom := alookup_refreshSkipped_mem_vanished sha fs now hfsk
      (hrec.trans hnonef) hfnone
    unfold fileLookup
    rw [hkey]
    simp only [Option.some_bind]
    rw [hfiles]
    exact alookup_filter_none _ hcom

/-- C5 witness: skipping `f` refreshes its `last_success` to the exit time
while preserving its stored hash. -/
theorem C5_witness :
    ∃ c1, wCtx5.aexit wSha wFS 5 5 false wC1 = .ok c1 ∧
      fileLookup c1 "s@h0" "f" =
        some { hash := some "h1", last_success := some (.valid 5) } := by
  have hwf : CacheWF wC1 := by
    constructor
    · decide
    · show ∀ p ∈ wC1, (List.map Prod.fst p.2.files).Nodup
      decide
  refine ⟨wC5res, by decide, ?_⟩
  have h := C5_skipped_refresh wSha wFS 5 5 wC1 wCtx5 "s@h0" "f" wC5res
    hwf rfl (by decide) (by decide) (by decide) (by decide)
  have h2 := h.1 { hash := some "h1", last_success := some (.valid 0) }
    (by decide)
  exact h2

/-- C2: a file reported successfully in a session that exits cleanly (and
readable at exit), whose bytes are unchanged afterwards, is placed in
`skipped` — not `to_process` — by a subsequent session with the same
processor key that lists it among its candidates. -/
theorem C2_unchanged_is_skipped (sha : Bytes → String) (fs1 fs2 : FS)
    (now nowEvict : Int) (c0 c1 : CacheModel)
    (ctx1 ctx2 ctx2' : JournalRunContext) (k f : String) (b : Bytes)
    (hwf : CacheWF c0)
    (hk1 : ctx1.exitKey sha fs1 = .ok k)
    (hrep : f ∈ ctx1.reported)
    (hb1 : fs1 f = some b)
    (hfresh : nowEvict ≤ now + 30 * 24 * 3600)
    (hexit : ctx1.aexit sha fs1 now nowEvict false c0 = .ok c1)
    (hk2 : script_key_from sha fs2 ctx2.script_id = .ok k)
    (hj2 : f ∈ ctx2.journals)
    (hb2 : fs2 f = some b)
    (henter : ctx2.aenter sha fs2 c1 = .ok ctx2') :
    f ∈ ctx2'.skipped ∧ f ∉ ctx2'.to_process := by
  obtain ⟨c1', e1, hex2, hkey, hla, hfiles⟩ :=
    aexit_success_lookup sha fs1 now nowEvict c0 ctx1 k hwf hk1 hfresh
  rw [hexit] at hex2
  injection hex2 with hcc
  subst hcc
  have hfr : f ∈ sortPaths ctx1.reported :=
    (mem_sortPaths f ctx1.reported).mpr hrep
  have hrec : alookup (recordReported sha fs1 now
      ((alookup c0 k).getD emptyScriptEntry).files (sortPaths ctx1.reported)) f
      = some { hash := some (sha b), last_success := some (.valid now) } :=
    alookup_recordReported_mem sha fs1 now hfr hb1
  have hcom : alookup (refreshSkipped sha fs1 now
      (recordReported sha fs1 now
        ((alookup c0 k).getD emptyScriptEntry).files (sortPaths ctx1.reported))
      (sortPaths ctx1.skipped)) f
      = some { hash := some (sha b), last_success := some (.valid now) } := by
    by_cases hsk : f ∈ sortPaths ctx1.skipped
    · exact alookup_refreshSkipped_mem_some sha fs1 now hsk hrec
    · rw [alookup_refreshSkipped_not_mem sha fs1 now hsk]
      exact hrec
  have he1 : alookup e1.files f =
      some { hash := some (sha b), last_success := some (.valid now) } := by
    rw [hfiles]
    exact alookup_filter_some _ hcom (fileEntryFresh_now _ now _ rfl (by omega))
  unfold JournalRunContext.aenter at henter
  rw [hk2] at henter
  simp only [Except.ok.injEq] at henter
  have hgd : (alookup c1 k).getD emptyScriptEntry = e1 := by
    rw [hkey]
    rfl
  have hsk2 : ctx2'.skipped = ctx2.journals.filter (goesSkipped sha fs2 e1.files) := by
    rw [← henter, hgd]
    simp [partitionJournals_eq]
  have htp2 : ctx2'.to_process =
      ctx2.journals.filter (fun i => !goesSkipped sha fs2 e1.files i) := by
    rw [← henter, hgd]
    simp [partitionJournals_eq]
  have hgs : goesSkipped sha fs2 e1.files f = true := by
    unfold goesSkipped
    have hfh : file_hash sha fs2 f = some (sha b) := by simp [file_hash, hb2]
    rw [hfh, he1]
    simp
  constructor
  · rw [hsk2]
    exact List.mem_filter.mpr ⟨hj2, hgs⟩
  · rw [htp2]
    intro hc
    have h2 := (List.mem_filter.mp hc).2
    rw [hgs] at h2
    cases h2

/-- C2 witness: `f` reported in session 1 and unchanged on disk is skipped
by session 2. -/
theorem C2_witness : "f" ∈ wCtxS2.skipped ∧ "f" ∉ wCtxS2.to_process :=
  C2_unchanged_is_skipped wSha wFS wFS 0 0 [] wC1 wCtx1 wCtx3 wCtxS2
    "s@h0" "f" [1] ⟨List.nodup_nil, by simp⟩ rfl (by decide) (by decide)
    (by decide) (by decide) (by decide) (by decide) (by decide) (by decide)

end LedgerCache
